import Mathlib

set_option maxRecDepth 8000

/-!
Verification of the StoryLens Story Bible store
(`src/storylens-extension/src/background.ts`, `bible.ts` section).

The store is shallowly embedded as pure Lean functions.  JavaScript objects
with string keys are modelled as association lists in insertion order
(`objGet` finds the first matching key; `objSet` replaces in place or
appends), matching JS object enumeration order for non-integer-like keys.
JavaScript numbers appearing in `hooks` are modelled by `JsNum`
(NaN, the infinities, or a finite rational).  `Date.now()` is modelled by an
explicit `nowT : Nat` parameter per operation.  `chrome.storage.local` under
the single bucket key is modelled by `Store`, an association list from
project id to `Bible`.

String primitives that the source uses (`trim`, `toLowerCase`,
`split(":")[0]`, the regexes `^[A-Za-z]+:` and `/^character:/i`) are
re-implemented over `List Char` by structural recursion so that they reduce
in the kernel; they agree with the JS semantics on the ASCII data the store
handles (JS `trim`/`toLowerCase` additionally handle non-ASCII whitespace
and case, which never matters below and is noted where relevant).
-/

namespace SL

/-! ## JS primitives -/

/-- A JavaScript number as it can appear in `hooks`. -/
inductive JsNum where
  | nan : JsNum
  | inf : JsNum
  | ninf : JsNum
  | fin : Rat → JsNum
deriving DecidableEq

/-- JS `isFinite(n)` for a `JsNum`. -/
def isFiniteNum : JsNum → Bool
  | .fin _ => true
  | _ => false

/-- The test `n >= 0 && n <= 1` on JS numbers (comparisons with NaN are false;
`Infinity <= 1` and `-Infinity >= 0` are false). -/
def inUnitRange : JsNum → Bool
  | .fin q => decide (0 ≤ q) && decide (q ≤ 1)
  | _ => false

/-- JS `String.prototype.trim` (ASCII whitespace). -/
def strTrim (s : String) : String :=
  String.mk (((s.toList.dropWhile Char.isWhitespace).reverse.dropWhile Char.isWhitespace).reverse)

/-- Lowercase one ASCII character (JS `toLowerCase` restricted to ASCII). -/
def charLower (c : Char) : Char :=
  if 65 ≤ c.toNat ∧ c.toNat ≤ 90 then Char.ofNat (c.toNat + 32) else c

/-- JS `String.prototype.toLowerCase` (ASCII). -/
def strLower (s : String) : String := String.mk (s.toList.map charLower)

/-- Is `p` a prefix of `c`? (char-list version of JS `startsWith`). -/
def startsWithList : List Char → List Char → Bool
  | [], _ => true
  | _ :: _, [] => false
  | p :: ps, c :: cs => p == c && startsWithList ps cs

/-- Whether `needle` occurs as a contiguous substring of `hay`
(JS `String.prototype.includes`). -/
def containsList (needle : List Char) : List Char → Bool
  | [] => needle.isEmpty
  | c :: cs => startsWithList needle (c :: cs) || containsList needle cs

/-- JS `hay.includes(needle)`. -/
def strContains (hay needle : String) : Bool := containsList needle.toList hay.toList

/-- JS `id.split(":")[0]`: everything before the first colon. -/
def headBeforeColon (s : String) : String :=
  String.mk (s.toList.takeWhile (fun c => c ≠ ':'))

/-- Association-list read: JS `obj[k]` (first matching key). -/
def objGet {α : Type} : List (String × α) → String → Option α
  | [], _ => none
  | (k', v) :: rest, k => if k' = k then some v else objGet rest k

/-- Association-list write: JS `obj[k] = v` (replace in place, else append;
JS objects keep the original position of an updated key). -/
def objSet {α : Type} : List (String × α) → String → α → List (String × α)
  | [], k, v => [(k, v)]
  | (k', v') :: rest, k, v =>
    if k' = k then (k, v) :: rest else (k', v') :: objSet rest k v

/-- First-occurrence deduplication by a key function, with a `seen` set of
already-used keys.  `dedupBy key [] l` keeps, in order, each element of `l`
whose key has not appeared before (the behaviour of iterating with a JS
`Set` of keys). -/
def dedupBy {α κ : Type} [DecidableEq κ] (key : α → κ) : List κ → List α → List α
  | _, [] => []
  | seen, x :: xs =>
    if key x ∈ seen then dedupBy key seen xs
    else x :: dedupBy key (key x :: seen) xs

/-- The helper `uniq` from the source: `Array.from(new Set(arr))`, which keeps the first
occurrence of each element in order. -/
def uniq {α : Type} [DecidableEq α] (l : List α) : List α := dedupBy id [] l

/-! ## Data model (`bible.ts` types) -/

/-- Source type `Evidence = { span?: [number, number]; quote?: string; chapterId?: string }`. -/
structure Evidence where
  span : Option (Int × Int)
  quote : Option String
  chapterId : Option String
deriving DecidableEq

/-- An attribute value: `string | string[]`. -/
inductive AttrVal where
  | str : String → AttrVal
  | arr : List String → AttrVal
deriving DecidableEq

/-- The `attrs` record `Record<string, string | string[]>` in insertion order. -/
abbrev AttrMap := List (String × AttrVal)

/-- An entity of the Bible. `type` is kept as a string, as at runtime;
`normalizeType` below always returns one of the five valid names. -/
structure Entity where
  id : String
  type : String
  attrs : AttrMap
  evidence : List Evidence
deriving DecidableEq

/-- A narrative thread.  Optional JS fields are `Option`s; `none` models an
absent property. -/
structure Thread where
  name : String
  status : String
  notes : Option String
  hooks : List JsNum
  todos : List String
  updatedAt : Option Nat
  createdAt : Option Nat
deriving DecidableEq

/-- The `style` field is a free-form record of stylistic hints; its contents are
irrelevant to every property below, so it is modelled as a plain
string-to-string record. -/
abbrev Style := List (String × String)

/-- The per-project aggregate. -/
structure Bible where
  projectId : String
  updatedAt : Nat
  schemaVersion : Nat
  entities : List (String × Entity)
  threads : List Thread
  style : Style
deriving DecidableEq

/-- The storage bucket: one serialized `Bible` per project id. -/
abbrev Store := List (String × Bible)

/-! ## Constants -/

def SCHEMA_VERSION : Nat := 1
def MAX_ENTITIES : Nat := 2000
def MAX_EVIDENCE_PER_ENTITY : Nat := 20
def MAX_THREADS : Nat := 500
def MAX_TODOS_PER_THREAD : Nat := 40

/-! ## Internal helpers of the source -/

/-- Source `normalizeType`: keep a recognized name, else coerce from an id-style
prefix (`/^character:/i` etc. become lowercase prefix tests), else `Concept`. -/
def normalizeType (t : String) : String :=
  let T := strTrim t
  if T = "Character" ∨ T = "Location" ∨ T = "Rule" ∨ T = "Object" ∨ T = "Concept" then T
  else if startsWithList "character:".toList (strLower T).toList then "Character"
  else if startsWithList "location:".toList (strLower T).toList then "Location"
  else if startsWithList "rule:".toList (strLower T).toList then "Rule"
  else if startsWithList "object:".toList (strLower T).toList then "Object"
  else "Concept"

/-- The test `/^[A-Za-z]+:/.test(id)`: one or more ASCII letters followed by
a colon.  Since `:` is not a letter, maximal munch is equivalent to the
regex's backtracking search. -/
def startsAlphaColon (id : String) : Bool :=
  match id.toList.takeWhile Char.isAlpha, id.toList.dropWhile Char.isAlpha with
  | [], _ => false
  | _ :: _, rest => rest.head? == some ':'

/-- Source `ensureIdPrefix(id, type)`: keep an id that already has
an alphabetic prefix, else prepend `type ++ ":"`. -/
def ensureIdPrefixed (id ty : String) : String :=
  if startsAlphaColon id then id else ty ++ ":" ++ id

/-- The attribute list a present value contributes to a set union:
`Array.isArray(av) ? av : (av != null ? [String(av)] : [])`.  Note that an
empty string still contributes `[""]`. -/
def avToList : Option AttrVal → List String
  | some (.arr l) => l
  | some (.str s) => [s]
  | none => []

/-- Merge one delta value `v` into the existing slot `av`
(the body of the `for` loop of `mergeAttrs`):
if either side is an array, deduplicated union capped at 50;
else if both are non-empty differing scalars, the two-element set;
else the new scalar wins. -/
def mergeVal (av : Option AttrVal) (v : AttrVal) : AttrVal :=
  match v with
  | .arr bl => .arr ((uniq (avToList av ++ bl)).take 50)
  | .str s =>
    match av with
    | some (.arr al) => .arr ((uniq (al ++ [s])).take 50)
    | some (.str a) => if a ≠ "" ∧ a ≠ s then .arr (uniq [a, s]) else .str s
    | none => .str s

/-- One step of `mergeAttrs`: process the delta entry `kv` against `out`. -/
def mergeOne (out : AttrMap) (kv : String × AttrVal) : AttrMap :=
  objSet out kv.1 (mergeVal (objGet out kv.1) kv.2)

/-- Source `mergeAttrs(a, b)`: start from a copy of `a` and fold the entries of `b`. -/
def mergeAttrs (a b : AttrMap) : AttrMap := b.foldl mergeOne a

/-- The dedup key of one evidence entry:
`chapterId || "" | (span || []).join(",") | (quote || "").slice(0, 80)`. -/
def evKey (e : Evidence) : String :=
  (e.chapterId.getD "") ++ "|" ++
    (match e.span with
     | none => ""
     | some p => toString p.1 ++ "," ++ toString p.2) ++ "|" ++
    String.mk ((e.quote.getD "").toList.take 80)

/-- Source `dedupeEvidence`: keep the first occurrence of each key; the source
loop `push`es then `break`s once `MAX_EVIDENCE_PER_ENTITY` entries are
collected, which returns exactly the first `MAX_EVIDENCE_PER_ENTITY`
elements of the unbounded key-dedup. -/
def dedupeEvidence (l : List Evidence) : List Evidence :=
  (dedupBy evKey [] l).take MAX_EVIDENCE_PER_ENTITY

/-- The todo/hook clamp applied to one thread by `pruneBible`. -/
def pruneThread (t : Thread) : Thread :=
  { t with todos := t.todos.take MAX_TODOS_PER_THREAD,
           hooks := t.hooks.filter inUnitRange }

/-- Source `pruneBible`: clamp entities to the first `MAX_ENTITIES`, re-dedupe
evidence per entity, clamp threads to the last `MAX_THREADS`
(`slice(-MAX_THREADS)`), truncate todos and filter hooks.
`(t.hooks || []).map(Number)` is the identity on numbers. -/
def pruneBible (b : Bible) : Bible :=
  let ents0 := if b.entities.length > MAX_ENTITIES then b.entities.take MAX_ENTITIES else b.entities
  let ents := ents0.map fun ke => (ke.1, { ke.2 with evidence := dedupeEvidence ke.2.evidence })
  let ths0 := if b.threads.length > MAX_THREADS then b.threads.drop (b.threads.length - MAX_THREADS) else b.threads
  { b with entities := ents, threads := ths0.map pruneThread }

/-- The fresh default aggregate created for an unknown project. -/
def freshBible (pid : String) (nowT : Nat) : Bible :=
  { projectId := pid, updatedAt := nowT, schemaVersion := SCHEMA_VERSION,
    entities := [], threads := [], style := [] }

/-- Source `migrate`: stamp a default for a missing record, else re-key to the
project and prune.  (The `!("schemaVersion" in b)` repair concerns raw
records without the field; `Bible` always carries the field here, and a
present version — current or future — is passed through untouched.) -/
def migrate (b : Option Bible) (pid : String) (nowT : Nat) : Bible :=
  match b with
  | none => freshBible pid nowT
  | some b => pruneBible { b with projectId := pid }

/-! ## Persistence API -/

/-- Source `getBible`: load and migrate; persist only when the project was absent.
When the record exists, `migrate` returns (a pruned mutation of) the same
object, so the `all[projectId] !== migrated` reference test is false and
nothing is written back. -/
def getBible (store : Store) (pid : String) (nowT : Nat) : Bible × Store :=
  match objGet store pid with
  | none =>
    let m := migrate none pid nowT
    (m, objSet store pid m)
  | some b => (migrate (some b) pid nowT, store)

/-- The loaded, migrated view of a project used by every operation. -/
def bibleView (store : Store) (pid : String) (nowT : Nat) : Bible :=
  (getBible store pid nowT).1

/-- Source `putBible`: re-stamp `updatedAt` and `schemaVersion`, prune, store. -/
def putBible (store : Store) (b : Bible) (nowT : Nat) : Store :=
  objSet store b.projectId
    (pruneBible { b with updatedAt := nowT, schemaVersion := SCHEMA_VERSION })

/-- The raw type string `upsertEntity` normalizes:
`e.type || e.id.split(":")[0]`. -/
def entityRawType (e : Entity) : String :=
  if e.type ≠ "" then e.type else headBeforeColon e.id

/-- The normalized type computed by `upsertEntity`. -/
def entityNType (e : Entity) : String := normalizeType (entityRawType e)

/-- The canonical id `upsertEntity` stores an entity under. -/
def canonicalId (e : Entity) : String := ensureIdPrefixed e.id (entityNType e)

/-- The merged entity: union attrs, concatenate-then-dedupe evidence. -/
def mergeEntity (prev : Option Entity) (e : Entity) : Entity :=
  { id := canonicalId e,
    type := entityNType e,
    attrs := mergeAttrs ((prev.map Entity.attrs).getD []) e.attrs,
    evidence := dedupeEvidence (((prev.map Entity.evidence).getD []) ++ e.evidence) }

/-- Source `upsertEntity`. -/
def upsertEntity (store : Store) (pid : String) (e : Entity) (nowT : Nat) : Store :=
  let p := getBible store pid nowT
  let b := p.1
  let id := canonicalId e
  let merged := mergeEntity (objGet b.entities id) e
  putBible p.2 { b with entities := objSet b.entities id merged, updatedAt := nowT } nowT

/-- Source `addEvidence`: silently return when the entity (looked up by the raw,
non-canonicalized id) is absent; note that `getBible` has already persisted
a fresh aggregate if the project itself was absent. -/
def addEvidence (store : Store) (pid id : String) (ev : Evidence) (nowT : Nat) : Store :=
  let p := getBible store pid nowT
  let b := p.1
  match objGet b.entities id with
  | none => p.2
  | some cur =>
    let cur2 := { cur with evidence := dedupeEvidence (cur.evidence ++ [ev]) }
    putBible p.2 { b with entities := objSet b.entities id cur2, updatedAt := nowT } nowT

/-- Source `upsertThread`.  The merged thread is `{...base, ...t, ...}` so the
*untrimmed* `t.name` overwrites the trimmed lookup name; `notes` and
`createdAt` come from `t` when present, else from `base` (absent optional
properties).  Hooks: `uniq` union, filtered to finite values in `[0,1]`. -/
def upsertThread (store : Store) (pid : String) (t : Thread) (nowT : Nat) : Store :=
  let p := getBible store pid nowT
  let b := p.1
  let name := strTrim t.name
  if name = "" then p.2
  else
    let i? := b.threads.findIdx? fun x => x.name == name
    let newBase : Thread :=
      { name := name, status := "open", notes := none, hooks := [], todos := [],
        updatedAt := none, createdAt := some nowT }
    let base : Thread :=
      match i? with
      | some i => (b.threads.get? i).getD newBase
      | none => newBase
    let merged : Thread :=
      { name := t.name,
        status := if t.status ≠ "" then t.status
                  else if base.status ≠ "" then base.status else "open",
        notes := t.notes <|> base.notes,
        hooks := ((uniq (base.hooks ++ t.hooks)).filter isFiniteNum).filter inUnitRange,
        todos := (uniq (base.todos ++ t.todos)).take MAX_TODOS_PER_THREAD,
        updatedAt := some nowT,
        createdAt := t.createdAt <|> base.createdAt }
    let threads2 :=
      match i? with
      | some i => b.threads.set i merged
      | none => b.threads ++ [merged]
    putBible p.2 { b with threads := threads2, updatedAt := nowT } nowT

/-- Source `closeThread`: set status `closed` in place; no write when absent. -/
def closeThread (store : Store) (pid name : String) (nowT : Nat) : Store :=
  let p := getBible store pid nowT
  let b := p.1
  match b.threads.findIdx? (fun x => x.name == name) with
  | none => p.2
  | some i =>
    match b.threads.get? i with
    | none => p.2
    | some t =>
      let t2 := { t with status := "closed", updatedAt := some nowT }
      putBible p.2 { b with threads := b.threads.set i t2 } nowT

/-- Source `removeThread`: splice out the first thread with the exact name. -/
def removeThread (store : Store) (pid name : String) (nowT : Nat) : Store :=
  let p := getBible store pid nowT
  let b := p.1
  match b.threads.findIdx? (fun x => x.name == name) with
  | none => p.2
  | some i =>
    putBible p.2 { b with threads := b.threads.eraseIdx i, updatedAt := nowT } nowT

/-- Source `removeEntity`. -/
def removeEntity (store : Store) (pid id : String) (nowT : Nat) : Store :=
  let p := getBible store pid nowT
  let b := p.1
  match objGet b.entities id with
  | none => p.2
  | some _ =>
    putBible p.2 { b with entities := b.entities.filter (fun kv => kv.1 ≠ id), updatedAt := nowT } nowT

/-! ## Search and snapshot projections -/

/-- A minimal `JSON.stringify` for an attrs record, sufficient for the
search haystack (escapes quotes and backslashes). -/
def jsonEscape (s : String) : String :=
  String.mk (s.toList.foldr (fun c acc => if c = '"' ∨ c = '\\' then '\\' :: c :: acc else c :: acc) [])

def jsonOfAttrVal : AttrVal → String
  | .str s => "\"" ++ jsonEscape s ++ "\""
  | .arr l => "[" ++ String.intercalate "," (l.map fun s => "\"" ++ jsonEscape s ++ "\"") ++ "]"

def jsonOfAttrs (m : AttrMap) : String :=
  "\x7b" ++ String.intercalate "," (m.map fun kv => "\"" ++ jsonEscape kv.1 ++ "\":" ++ jsonOfAttrVal kv.2) ++ "\x7d"

/-- The result record of `searchBible`. -/
structure SearchResult where
  entities : List Entity
  threads : List Thread
  style : Style
deriving DecidableEq

/-- Source `searchBible`: case-insensitive substring filter; empty query matches
everything.  Returns the result and the store as it stands after the
embedded `getBible` (which persists a fresh aggregate when absent). -/
def searchBible (store : Store) (pid q : String) (nowT : Nat) : SearchResult × Store :=
  let p := getBible store pid nowT
  let b := p.1
  let qq := strTrim (strLower q)
  let entities := (b.entities.map Prod.snd).filter fun e =>
    (qq == "") || strContains (strLower (e.id ++ " " ++ e.type ++ " " ++ jsonOfAttrs e.attrs)) qq
  let threads := b.threads.filter fun t =>
    (qq == "") || strContains (strLower (t.name ++ " " ++ t.notes.getD "" ++ " " ++ String.intercalate " " t.todos)) qq
  ({ entities := entities, threads := threads, style := b.style }, p.2)

/-- One entity of the LLM snapshot: id, type and a truncated attrs record —
no evidence field at all. -/
structure SnapEntity where
  id : String
  type : String
  attrs : AttrMap
deriving DecidableEq

/-- One thread of the LLM snapshot. -/
structure SnapThread where
  name : String
  status : String
  notes : Option String
  hooks : List JsNum
deriving DecidableEq

structure Snapshot where
  entities : List SnapEntity
  threads : List SnapThread
  style : Style
  updatedAt : Nat
deriving DecidableEq

/-- Source `getSnapshotForLLM` (defaults: `maxEntities = 60`,
`maxAttrsPerEntity = 6`; the bounds are taken as naturals).  Entities are
sorted by evidence count descending (JS `sort` is stable), truncated, and
projected to their first `maxAttrsPerEntity` attribute keys
(`Object.keys(e.attrs).slice(0, maxAttrsPerEntity)` with the per-key pick
equals `take` on the insertion-ordered attrs record).  Threads:
`slice(-20)` i.e. the trailing 20, with at most the first 6 hooks. -/
def getSnapshotForLLM (store : Store) (pid : String) (maxEntities maxAttrsPerEntity : Nat) (nowT : Nat) : Snapshot × Store :=
  let p := getBible store pid nowT
  let b := p.1
  let ents := (((b.entities.map Prod.snd).mergeSort
      (fun a z => z.evidence.length ≤ a.evidence.length)).take maxEntities).map
    fun e => ({ id := e.id, type := e.type, attrs := e.attrs.take maxAttrsPerEntity } : SnapEntity)
  let threads := (b.threads.drop (b.threads.length - 20)).map fun t =>
    ({ name := t.name, status := t.status, notes := t.notes, hooks := t.hooks.take 6 } : SnapThread)
  ({ entities := ents, threads := threads, style := b.style, updatedAt := b.updatedAt }, p.2)

/-- Entity lookup inside the stored (persisted) aggregate of a project. -/
def entityAt (store : Store) (pid id : String) : Option Entity :=
  (objGet store pid).bind fun b => objGet b.entities id

/-- A bible is pruned when another prune pass would not change it.  Every
value the store ever persists is of this shape. -/
abbrev Pruned (b : Bible) : Prop := pruneBible b = b


/-! ## Association-list lemmas -/

theorem objGet_objSet_self {α : Type} (m : List (String × α)) (k : String) (v : α) :
    objGet (objSet m k v) k = some v := by
  induction m with
  | nil => simp [objGet, objSet]
  | cons kv rest ih =>
    obtain ⟨k', v'⟩ := kv
    by_cases h : k' = k
    · simp [objSet, objGet, h]
    · simp [objSet, objGet, h, ih]

theorem objGet_objSet_ne {α : Type} (m : List (String × α)) (k' k : String) (v : α)
    (h : k' ≠ k) : objGet (objSet m k' v) k = objGet m k := by
  induction m with
  | nil => simp [objGet, objSet, h]
  | cons kv rest ih =>
    obtain ⟨k0, v0⟩ := kv
    by_cases h0 : k0 = k'
    · subst h0
      simp only [objSet, if_pos rfl]
      simp [objGet, h]
    · simp only [objSet, if_neg h0]
      by_cases h1 : k0 = k <;> simp [objGet, h1, ih]

theorem objSet_objGet {α : Type} (m : List (String × α)) (k : String) (v : α)
    (h : objGet m k = some v) : objSet m k v = m := by
  induction m with
  | nil => simp [objGet] at h
  | cons kv rest ih =>
    obtain ⟨k0, v0⟩ := kv
    by_cases h0 : k0 = k
    · subst h0
      simp [objGet] at h
      simp [objSet, h]
    · simp [objGet, h0] at h
      simp [objSet, h0, ih h]

theorem objSet_append_of_none {α : Type} (m : List (String × α)) (k : String) (v : α)
    (h : objGet m k = none) : objSet m k v = m ++ [(k, v)] := by
  induction m with
  | nil => simp [objSet]
  | cons kv rest ih =>
    obtain ⟨k0, v0⟩ := kv
    by_cases h0 : k0 = k
    · simp [objGet, h0] at h
    · simp [objGet, h0] at h
      simp [objSet, h0, ih h]

theorem objGet_append_none {α : Type} (m m' : List (String × α)) (k : String)
    (h : objGet m k = none) : objGet (m ++ m') k = objGet m' k := by
  induction m with
  | nil => simp
  | cons kv rest ih =>
    obtain ⟨k0, v0⟩ := kv
    by_cases h0 : k0 = k
    · simp [objGet, h0] at h
    · simp [objGet, h0] at h ⊢
      exact ih h

theorem objGet_none_iff {α : Type} (m : List (String × α)) (k : String) :
    objGet m k = none ↔ ∀ kv ∈ m, kv.1 ≠ k := by
  induction m with
  | nil => simp [objGet]
  | cons kv rest ih =>
    obtain ⟨k0, v0⟩ := kv
    by_cases h0 : k0 = k <;> simp [objGet, h0, ih]

theorem objSet_length_of_some {α : Type} (m : List (String × α)) (k : String) (v w : α)
    (h : objGet m k = some v) : (objSet m k w).length = m.length := by
  induction m with
  | nil => simp [objGet] at h
  | cons kv rest ih =>
    obtain ⟨k0, v0⟩ := kv
    by_cases h0 : k0 = k
    · simp [objSet, h0]
    · simp [objGet, h0] at h
      simp [objSet, h0, ih h]

theorem mem_objSet {α : Type} (m : List (String × α)) (k : String) (v : α) (x : String × α)
    (h : x ∈ objSet m k v) : x ∈ m ∨ x = (k, v) := by
  induction m with
  | nil => simp [objSet] at h; simp [h]
  | cons kv rest ih =>
    obtain ⟨k0, v0⟩ := kv
    by_cases h0 : k0 = k
    · simp [objSet, h0] at h
      rcases h with h | h
      · right; simp [h]
      · left; simp [h]
    · simp [objSet, h0] at h
      rcases h with h | h
      · left; simp [h]
      · rcases ih h with h' | h'
        · left; simp [h']
        · right; exact h'

theorem map_eq_self_of {α : Type} (l : List α) (f : α → α) (h : ∀ x ∈ l, f x = x) :
    l.map f = l := by
  induction l with
  | nil => rfl
  | cons x xs ih =>
    simp only [List.map_cons, List.cons.injEq]
    exact ⟨h x (by simp), ih (fun y hy => h y (by simp [hy]))⟩

theorem of_map_eq_self {α : Type} (l : List α) (f : α → α) (h : l.map f = l) :
    ∀ x ∈ l, f x = x := by
  induction l with
  | nil => simp
  | cons x xs ih =>
    simp only [List.map_cons, List.cons.injEq] at h
    intro y hy
    rcases List.mem_cons.mp hy with rfl | hy
    · exact h.1
    · exact ih h.2 y hy

/-! ## Deduplication lemmas -/

theorem dedupBy_congr {α κ : Type} [DecidableEq κ] (key : α → κ) (l : List α)
    (s₁ s₂ : List κ) (h : ∀ k, k ∈ s₁ ↔ k ∈ s₂) :
    dedupBy key s₁ l = dedupBy key s₂ l := by
  induction l generalizing s₁ s₂ with
  | nil => rfl
  | cons x xs ih =>
    simp only [dedupBy]
    by_cases hx : key x ∈ s₁
    · rw [if_pos hx, if_pos ((h _).mp hx), ih _ _ h]
    · rw [if_neg hx, if_neg (fun c => hx ((h _).mpr c)), ih]
      intro k
      simp only [List.mem_cons]
      exact or_congr Iff.rfl (h k)

theorem dedupBy_append {α κ : Type} [DecidableEq κ] (key : α → κ) (l m : List α)
    (s : List κ) :
    dedupBy key s (l ++ m) = dedupBy key s l ++ dedupBy key (l.map key ++ s) m := by
  induction l generalizing s with
  | nil => simp [dedupBy]
  | cons x xs ih =>
    simp only [List.cons_append, dedupBy, List.map_cons, List.append_eq]
    by_cases hx : key x ∈ s
    · rw [if_pos hx, if_pos hx, ih]
      refine congrArg _ (dedupBy_congr _ _ _ _ ?_)
      intro k
      simp only [List.mem_append, List.mem_cons]
      constructor
      · rintro (h | h)
        · exact Or.inr (Or.inl h)
        · exact Or.inr (Or.inr h)
      · rintro (rfl | h | h)
        · exact Or.inr hx
        · exact Or.inl h
        · exact Or.inr h
    · rw [if_neg hx, if_neg hx, List.cons_append, ih (key x :: s)]
      refine congrArg _ (congrArg _ (dedupBy_congr _ _ _ _ ?_))
      intro k
      simp only [List.mem_append, List.mem_cons]
      tauto

theorem mem_key_dedupBy {α κ : Type} [DecidableEq κ] (key : α → κ) (l : List α)
    (s : List κ) (k : κ) :
    k ∈ (dedupBy key s l).map key ↔ k ∈ l.map key ∧ k ∉ s := by
  induction l generalizing s with
  | nil => simp [dedupBy]
  | cons x xs ih =>
    simp only [dedupBy]
    by_cases hx : key x ∈ s
    · rw [if_pos hx]
      rw [ih]
      simp only [List.map_cons, List.mem_cons]
      constructor
      · rintro ⟨h1, h2⟩; exact ⟨Or.inr h1, h2⟩
      · rintro ⟨rfl | h1, h2⟩
        · exact absurd hx h2
        · exact ⟨h1, h2⟩
    · rw [if_neg hx]
      simp only [List.map_cons, List.mem_cons, ih]
      constructor
      · rintro (rfl | ⟨h1, h2⟩)
        · exact ⟨Or.inl rfl, hx⟩
        · refine ⟨Or.inr h1, fun c => h2 (Or.inr c)⟩
      · rintro ⟨rfl | h1, h2⟩
        · exact Or.inl rfl
        · by_cases hk : k = key x
          · exact Or.inl hk
          · refine Or.inr ⟨h1, fun c => ?_⟩
            rcases c with c' | c'
            · exact hk c'
            · exact h2 c'

theorem dedupBy_keys_nodup {α κ : Type} [DecidableEq κ] (key : α → κ) (l : List α)
    (s : List κ) : ((dedupBy key s l).map key).Nodup := by
  induction l generalizing s with
  | nil => simp [dedupBy]
  | cons x xs ih =>
    simp only [dedupBy]
    by_cases hx : key x ∈ s
    · rw [if_pos hx]; exact ih s
    · rw [if_neg hx]
      simp only [List.map_cons, List.nodup_cons]
      refine ⟨fun c => ?_, ih _⟩
      rcases (mem_key_dedupBy key xs _ _).mp c with ⟨_, h2⟩
      exact h2 (List.mem_cons_self _ _)

theorem dedupBy_eq_nil {α κ : Type} [DecidableEq κ] (key : α → κ) (l : List α)
    (s : List κ) (h : ∀ x ∈ l, key x ∈ s) : dedupBy key s l = [] := by
  induction l with
  | nil => rfl
  | cons x xs ih =>
    simp only [dedupBy, if_pos (h x (by simp))]
    exact ih (fun y hy => h y (by simp [hy]))

theorem dedupBy_eq_self {α κ : Type} [DecidableEq κ] (key : α → κ) (l : List α)
    (s : List κ) (hn : (l.map key).Nodup) (hs : ∀ x ∈ l, key x ∉ s) :
    dedupBy key s l = l := by
  induction l generalizing s with
  | nil => rfl
  | cons x xs ih =>
    simp only [List.map_cons, List.nodup_cons] at hn
    simp only [dedupBy, if_neg (hs x (by simp))]
    refine congrArg _ (ih _ hn.2 ?_)
    intro y hy
    simp only [List.mem_cons]
    rintro (h | h)
    · exact hn.1 (h ▸ List.mem_map_of_mem key hy)
    · exact hs y (by simp [hy]) h

theorem dedupBy_length_le {α κ : Type} [DecidableEq κ] (key : α → κ) (l : List α)
    (s : List κ) : (dedupBy key s l).length ≤ l.length := by
  induction l generalizing s with
  | nil => simp [dedupBy]
  | cons x xs ih =>
    simp only [dedupBy]
    by_cases hx : key x ∈ s
    · rw [if_pos hx]
      exact le_trans (ih s) (by simp)
    · rw [if_neg hx]
      simpa using ih (key x :: s)

/-- The central absorption fact: re-merging the same batch `bb` into the
capped dedup of `aa ++ bb` changes nothing. -/
theorem dedupBy_take_absorb {α κ : Type} [DecidableEq κ] (key : α → κ)
    (n : Nat) (aa bb : List α) :
    (dedupBy key [] ((dedupBy key [] (aa ++ bb)).take n ++ bb)).take n
      = (dedupBy key [] (aa ++ bb)).take n := by
  set U := dedupBy key [] (aa ++ bb) with hU
  have hUnodup : (U.map key).Nodup := dedupBy_keys_nodup key _ _
  have hRnodup : ((U.take n).map key).Nodup := by
    rw [List.map_take]
    exact hUnodup.sublist (List.take_sublist n _)
  have h1 : dedupBy key [] (U.take n ++ bb)
      = U.take n ++ dedupBy key ((U.take n).map key ++ []) bb := by
    rw [dedupBy_append]
    rw [dedupBy_eq_self key _ _ hRnodup (by simp)]
  by_cases hn : U.length ≤ n
  · have hR : U.take n = U := List.take_of_length_le hn
    have hbb : dedupBy key ((U.take n).map key ++ []) bb = [] := by
      refine dedupBy_eq_nil key _ _ ?_
      intro x hx
      have hk : key x ∈ U.map key := by
        rw [hU, mem_key_dedupBy]
        exact ⟨by simp [List.mem_map_of_mem key hx], by simp⟩
      simp [hR, hk]
    rw [h1, hbb, List.append_nil, List.take_take, Nat.min_self]
  · have hlen : (U.take n).length = n := by
      rw [List.length_take]
      omega
    rw [h1, List.take_append_eq_append_take, hlen]
    rw [List.take_of_length_le (le_of_eq hlen), Nat.sub_self]
    simp

theorem dedupeEvidence_absorb (p ev : List Evidence) :
    dedupeEvidence (dedupeEvidence (p ++ ev) ++ ev) = dedupeEvidence (p ++ ev) :=
  dedupBy_take_absorb evKey MAX_EVIDENCE_PER_ENTITY p ev

theorem dedupeEvidence_idem (l : List Evidence) :
    dedupeEvidence (dedupeEvidence l) = dedupeEvidence l := by
  have h := dedupeEvidence_absorb l []
  simpa using h

theorem dedupeEvidence_length_le (l : List Evidence) :
    (dedupeEvidence l).length ≤ MAX_EVIDENCE_PER_ENTITY :=
  List.length_take_le _ _

theorem dedupeEvidence_keys_nodup (l : List Evidence) :
    ((dedupeEvidence l).map evKey).Nodup := by
  rw [dedupeEvidence, List.map_take]
  exact (dedupBy_keys_nodup evKey l []).sublist (List.take_sublist _ _)



/-! ## Merge absorption -/

theorem uniq_take_absorb (n : Nat) (aa bb : List String) :
    (uniq ((uniq (aa ++ bb)).take n ++ bb)).take n = (uniq (aa ++ bb)).take n :=
  dedupBy_take_absorb id n aa bb

/-- Re-merging the same delta value into an already-merged slot is a no-op. -/
theorem mergeVal_absorb (av : Option AttrVal) (v : AttrVal) :
    mergeVal (some (mergeVal av v)) v = mergeVal av v := by
  cases v with
  | arr bl =>
    simp only [mergeVal, avToList]
    rw [uniq_take_absorb]
  | str s =>
    cases av with
    | none =>
      simp [mergeVal]
    | some a0 =>
      cases a0 with
      | arr al =>
        simp only [mergeVal]
        have habs : (uniq ((uniq (al ++ [s])).take 50 ++ [s])).take 50
            = (uniq (al ++ [s])).take 50 := uniq_take_absorb 50 al [s]
        rw [habs]
      | str a =>
        by_cases h : a ≠ "" ∧ a ≠ s
        · rw [mergeVal, if_pos h]
          have hlen : (uniq [a, s]).length ≤ 50 :=
            le_trans (dedupBy_length_le id [a, s] []) (by norm_num)
          have ht : (uniq [a, s]).take 50 = uniq [a, s] := List.take_of_length_le hlen
          have habs : (uniq ((uniq [a, s]).take 50 ++ [s])).take 50
              = (uniq [a, s]).take 50 := uniq_take_absorb 50 [a] [s]
          rw [ht] at habs
          exact congrArg AttrVal.arr habs
        · rw [mergeVal, if_neg h]
          simp [mergeVal]

theorem mergeOne_objGet_ne (out : AttrMap) (kv : String × AttrVal) (k : String)
    (h : kv.1 ≠ k) : objGet (mergeOne out kv) k = objGet out k :=
  objGet_objSet_ne _ _ _ _ h

theorem foldl_mergeOne_objGet_ne (b : AttrMap) (out : AttrMap) (k : String)
    (h : ∀ kv ∈ b, kv.1 ≠ k) :
    objGet (b.foldl mergeOne out) k = objGet out k := by
  induction b generalizing out with
  | nil => rfl
  | cons kv rest ih =>
    rw [List.foldl_cons, ih _ (fun x hx => h x (by simp [hx]))]
    exact mergeOne_objGet_ne _ _ _ (h kv (by simp))

theorem foldl_mergeOne_absorb (b : AttrMap) : ∀ a : AttrMap, (b.map Prod.fst).Nodup →
    b.foldl mergeOne (b.foldl mergeOne a) = b.foldl mergeOne a := by
  induction b with
  | nil => intro a _; rfl
  | cons kv rest ih =>
    intro a hb
    obtain ⟨k, v⟩ := kv
    simp only [List.map_cons, List.nodup_cons] at hb
    simp only [List.foldl_cons]
    have hne : ∀ kv ∈ rest, kv.1 ≠ k := by
      intro x hx c
      exact hb.1 (c ▸ List.mem_map_of_mem Prod.fst hx)
    have hM : objGet (rest.foldl mergeOne (mergeOne a (k, v))) k
        = some (mergeVal (objGet a k) v) := by
      rw [foldl_mergeOne_objGet_ne rest _ k hne]
      exact objGet_objSet_self _ _ _
    have hfix : mergeOne (rest.foldl mergeOne (mergeOne a (k, v))) (k, v)
        = rest.foldl mergeOne (mergeOne a (k, v)) := by
      calc mergeOne (rest.foldl mergeOne (mergeOne a (k, v))) (k, v)
          = objSet (rest.foldl mergeOne (mergeOne a (k, v))) k
              (mergeVal (objGet (rest.foldl mergeOne (mergeOne a (k, v))) k) v) := rfl
        _ = objSet (rest.foldl mergeOne (mergeOne a (k, v))) k
              (mergeVal (some (mergeVal (objGet a k) v)) v) := by rw [hM]
        _ = objSet (rest.foldl mergeOne (mergeOne a (k, v))) k
              (mergeVal (objGet a k) v) := by rw [mergeVal_absorb]
        _ = rest.foldl mergeOne (mergeOne a (k, v)) := objSet_objGet _ _ _ hM
    rw [hfix]
    exact ih (mergeOne a (k, v)) hb.2

/-- Applying `mergeAttrs` twice with the same delta (a record, so its keys
are unique) gives the same result as applying it once. -/
theorem mergeAttrs_absorb (a b : AttrMap) (hb : (b.map Prod.fst).Nodup) :
    mergeAttrs (mergeAttrs a b) b = mergeAttrs a b :=
  foldl_mergeOne_absorb b a hb

/-- Re-merging an identical entity delta is absorbed. -/
theorem mergeEntity_absorb (prev : Option Entity) (e : Entity)
    (h : (e.attrs.map Prod.fst).Nodup) :
    mergeEntity (some (mergeEntity prev e)) e = mergeEntity prev e := by
  unfold mergeEntity
  congr 1
  · exact mergeAttrs_absorb _ _ h
  · exact dedupeEvidence_absorb _ _



/-! ## Prune and load lemmas -/

theorem bible_eta_update (X : Bible) :
    { X with entities := X.entities, threads := X.threads } = X := rfl

theorem eta_projectId (b : Bible) (pid : String) (h : b.projectId = pid) :
    { b with projectId := pid } = b := by rw [← h]

theorem pruneBible_entities (b : Bible) :
    (pruneBible b).entities
      = (if b.entities.length > MAX_ENTITIES then b.entities.take MAX_ENTITIES else b.entities).map
          (fun ke => (ke.1, { ke.2 with evidence := dedupeEvidence ke.2.evidence })) := rfl

theorem pruneBible_threads (b : Bible) :
    (pruneBible b).threads
      = (if b.threads.length > MAX_THREADS then b.threads.drop (b.threads.length - MAX_THREADS) else b.threads).map
          pruneThread := rfl

theorem pruneBible_projectId (b : Bible) : (pruneBible b).projectId = b.projectId := rfl

theorem pruneBible_schemaVersion (b : Bible) : (pruneBible b).schemaVersion = b.schemaVersion := rfl

theorem pruneThread_idem (t : Thread) : pruneThread (pruneThread t) = pruneThread t := by
  have h1 : ((t.todos.take MAX_TODOS_PER_THREAD).take MAX_TODOS_PER_THREAD)
      = t.todos.take MAX_TODOS_PER_THREAD := by
    rw [List.take_take, Nat.min_self]
  have h2 : ((t.hooks.filter inUnitRange).filter inUnitRange) = t.hooks.filter inUnitRange :=
    List.filter_eq_self.mpr (fun a ha => List.of_mem_filter ha)
  have hshape : pruneThread (pruneThread t)
      = { pruneThread t with
          todos := (t.todos.take MAX_TODOS_PER_THREAD).take MAX_TODOS_PER_THREAD,
          hooks := (t.hooks.filter inUnitRange).filter inUnitRange } := rfl
  rw [hshape, h1, h2]
  rfl

theorem entsMap_eq_self (l : List (String × Entity))
    (h : ∀ kv ∈ l, dedupeEvidence kv.2.evidence = kv.2.evidence) :
    l.map (fun ke => (ke.1, { ke.2 with evidence := dedupeEvidence ke.2.evidence })) = l := by
  refine map_eq_self_of _ _ ?_
  intro kv hkv
  obtain ⟨k, e⟩ := kv
  have h' := h (k, e) hkv
  simp only at h' ⊢
  rw [h']

theorem pruneBible_entities_length (b : Bible) :
    (pruneBible b).entities.length ≤ MAX_ENTITIES ∨ (pruneBible b).entities.length = b.entities.length := by
  rw [pruneBible_entities, List.length_map]
  by_cases h : b.entities.length > MAX_ENTITIES
  · rw [if_pos h, List.length_take]
    left
    omega
  · rw [if_neg h]
    right
    rfl

theorem pruneBible_entities_le (b : Bible) :
    (pruneBible b).entities.length ≤ MAX_ENTITIES := by
  rw [pruneBible_entities, List.length_map]
  by_cases h : b.entities.length > MAX_ENTITIES
  · rw [if_pos h, List.length_take]
    omega
  · rw [if_neg h]
    omega

theorem pruneBible_threads_le (b : Bible) :
    (pruneBible b).threads.length ≤ MAX_THREADS := by
  rw [pruneBible_threads, List.length_map]
  by_cases h : b.threads.length > MAX_THREADS
  · rw [if_pos h, List.length_drop]
    omega
  · rw [if_neg h]
    omega

theorem pruneBible_entities_fix (b : Bible) :
    ∀ kv ∈ (pruneBible b).entities, dedupeEvidence kv.2.evidence = kv.2.evidence := by
  intro kv hkv
  rw [pruneBible_entities] at hkv
  rcases List.mem_map.mp hkv with ⟨ke, _, rfl⟩
  exact dedupeEvidence_idem _

theorem pruneBible_threads_fix (b : Bible) :
    ∀ t ∈ (pruneBible b).threads, pruneThread t = t := by
  intro t ht
  rw [pruneBible_threads] at ht
  rcases List.mem_map.mp ht with ⟨t0, _, rfl⟩
  exact pruneThread_idem t0

theorem pruneBible_idem (b : Bible) : pruneBible (pruneBible b) = pruneBible b := by
  have hlen : ¬ ((pruneBible b).entities.length > MAX_ENTITIES) := by
    have := pruneBible_entities_le b
    omega
  have hlent : ¬ ((pruneBible b).threads.length > MAX_THREADS) := by
    have := pruneBible_threads_le b
    omega
  have he : (pruneBible (pruneBible b)).entities = (pruneBible b).entities := by
    rw [pruneBible_entities (pruneBible b), if_neg hlen]
    exact entsMap_eq_self _ (pruneBible_entities_fix b)
  have ht : (pruneBible (pruneBible b)).threads = (pruneBible b).threads := by
    rw [pruneBible_threads (pruneBible b), if_neg hlent]
    exact map_eq_self_of _ _ (pruneBible_threads_fix b)
  have hshape : pruneBible (pruneBible b)
      = { pruneBible b with
          entities := (pruneBible (pruneBible b)).entities,
          threads := (pruneBible (pruneBible b)).threads } := rfl
  rw [hshape, he, ht]

theorem pruned_entities_le {b : Bible} (hb : Pruned b) : b.entities.length ≤ MAX_ENTITIES := by
  have := pruneBible_entities_le b
  rwa [hb] at this

theorem pruned_threads_le {b : Bible} (hb : Pruned b) : b.threads.length ≤ MAX_THREADS := by
  have := pruneBible_threads_le b
  rwa [hb] at this

theorem pruned_entities_fix {b : Bible} (hb : Pruned b) :
    ∀ kv ∈ b.entities, dedupeEvidence kv.2.evidence = kv.2.evidence := by
  have := pruneBible_entities_fix b
  rwa [hb] at this

theorem pruned_threads_fix {b : Bible} (hb : Pruned b) :
    ∀ t ∈ b.threads, pruneThread t = t := by
  have := pruneBible_threads_fix b
  rwa [hb] at this

/-- Pruning after replacing the entities of an already-pruned bible is the
identity, provided the new entity list is within quota and each entry's
evidence is already deduplicated. -/
theorem prune_update_ents (b : Bible) (hb : Pruned b) (ents : List (String × Entity)) (n : Nat)
    (hlen : ents.length ≤ MAX_ENTITIES)
    (hfix : ∀ kv ∈ ents, dedupeEvidence kv.2.evidence = kv.2.evidence) :
    pruneBible { b with entities := ents, updatedAt := n, schemaVersion := SCHEMA_VERSION }
      = { b with entities := ents, updatedAt := n, schemaVersion := SCHEMA_VERSION } := by
  set X : Bible := { b with entities := ents, updatedAt := n, schemaVersion := SCHEMA_VERSION } with hX
  have hXe : X.entities = ents := rfl
  have hXt : X.threads = b.threads := rfl
  have hlen' : ¬ (X.entities.length > MAX_ENTITIES) := by rw [hXe]; omega
  have hlent : ¬ (X.threads.length > MAX_THREADS) := by
    rw [hXt]
    have := pruned_threads_le hb
    omega
  have he : (pruneBible X).entities = X.entities := by
    rw [pruneBible_entities X, if_neg hlen', hXe]
    exact entsMap_eq_self _ hfix
  have ht : (pruneBible X).threads = X.threads := by
    rw [pruneBible_threads X, if_neg hlent, hXt]
    exact map_eq_self_of _ _ (pruned_threads_fix hb)
  have hshape : pruneBible X
      = { X with entities := (pruneBible X).entities, threads := (pruneBible X).threads } := rfl
  rw [hshape, he, ht, bible_eta_update]

/-- Pruning after appending one new entity to an exactly-full pruned bible
drops the appended entity again. -/
theorem prune_update_ents_full (b : Bible) (hb : Pruned b) (x : String × Entity) (n : Nat)
    (hfull : b.entities.length = MAX_ENTITIES) :
    pruneBible { b with entities := b.entities ++ [x], updatedAt := n, schemaVersion := SCHEMA_VERSION }
      = { b with updatedAt := n, schemaVersion := SCHEMA_VERSION } := by
  set X : Bible := { b with entities := b.entities ++ [x], updatedAt := n, schemaVersion := SCHEMA_VERSION } with hX
  have hXe : X.entities = b.entities ++ [x] := rfl
  have hXt : X.threads = b.threads := rfl
  have hgt : X.entities.length > MAX_ENTITIES := by
    rw [hXe, List.length_append, List.length_singleton]
    omega
  have hlent : ¬ (X.threads.length > MAX_THREADS) := by
    rw [hXt]
    have := pruned_threads_le hb
    omega
  have htake : X.entities.take MAX_ENTITIES = b.entities := by
    rw [hXe, ← hfull]
    exact List.take_left b.entities [x]
  have he : (pruneBible X).entities = b.entities := by
    rw [pruneBible_entities X, if_pos hgt, htake]
    exact entsMap_eq_self _ (pruned_entities_fix hb)
  have ht : (pruneBible X).threads = b.threads := by
    rw [pruneBible_threads X, if_neg hlent, hXt]
    exact map_eq_self_of _ _ (pruned_threads_fix hb)
  have hshape : pruneBible X
      = { X with entities := (pruneBible X).entities, threads := (pruneBible X).threads } := rfl
  rw [hshape, he, ht]

theorem migrate_some (b : Bible) (pid : String) (n : Nat) :
    migrate (some b) pid n = pruneBible { b with projectId := pid } := rfl

theorem pruneBible_fresh (pid : String) (n : Nat) :
    pruneBible (freshBible pid n) = freshBible pid n := rfl

theorem migrate_pruned (b : Bible) (pid : String) (n : Nat)
    (h1 : b.projectId = pid) (h2 : Pruned b) : migrate (some b) pid n = b := by
  rw [migrate_some, eta_projectId b pid h1]
  exact h2

theorem getBible_of_some (store : Store) (pid : String) (n : Nat) (b : Bible)
    (h : objGet store pid = some b) :
    getBible store pid n = (pruneBible { b with projectId := pid }, store) := by
  unfold getBible
  rw [h]
  rfl

theorem getBible_of_none (store : Store) (pid : String) (n : Nat)
    (h : objGet store pid = none) :
    getBible store pid n = (freshBible pid n, objSet store pid (freshBible pid n)) := by
  unfold getBible
  rw [h]
  rfl

theorem bibleView_pruned (store : Store) (pid : String) (n : Nat) :
    Pruned (bibleView store pid n) := by
  unfold bibleView
  cases h : objGet store pid with
  | none => rw [getBible_of_none store pid n h]; exact pruneBible_fresh pid n
  | some b => rw [getBible_of_some store pid n b h]; exact pruneBible_idem _

theorem bibleView_projectId (store : Store) (pid : String) (n : Nat) :
    (bibleView store pid n).projectId = pid := by
  unfold bibleView
  cases h : objGet store pid with
  | none => rw [getBible_of_none store pid n h]; rfl
  | some b => rw [getBible_of_some store pid n b h]; rfl

theorem putBible_eq (store : Store) (b : Bible) (n : Nat) :
    putBible store b n
      = objSet store b.projectId
          (pruneBible { b with updatedAt := n, schemaVersion := SCHEMA_VERSION }) := rfl

theorem upsertEntity_eq (store : Store) (pid : String) (e : Entity) (n : Nat) :
    upsertEntity store pid e n
      = objSet (getBible store pid n).2 ((bibleView store pid n).projectId)
          (pruneBible { bibleView store pid n with
              entities := objSet (bibleView store pid n).entities (canonicalId e)
                (mergeEntity (objGet (bibleView store pid n).entities (canonicalId e)) e),
              updatedAt := n, schemaVersion := SCHEMA_VERSION }) := rfl

theorem objSet_length_le {α : Type} (m : List (String × α)) (k : String) (v : α) :
    (objSet m k v).length ≤ m.length + 1 := by
  induction m with
  | nil => simp [objSet]
  | cons kv rest ih =>
    obtain ⟨k0, v0⟩ := kv
    by_cases h0 : k0 = k
    · simp [objSet, h0]
    · simp only [objSet, if_neg h0, List.length_cons]
      omega

theorem bibleView_of_some (store : Store) (pid : String) (n : Nat) (B : Bible)
    (hB : objGet store pid = some B) (hpid : B.projectId = pid) (hp : Pruned B) :
    bibleView store pid n = B := by
  unfold bibleView
  rw [getBible_of_some store pid n B hB]
  show pruneBible { B with projectId := pid } = B
  rw [eta_projectId B pid hpid]
  exact hp

theorem pruned_of_eq_prune {X B : Bible} (h : pruneBible X = B) : Pruned B := by
  rw [← h]
  exact pruneBible_idem X

theorem entityAt_of_some (S : Store) (pid id : String) (B : Bible)
    (h : objGet S pid = some B) : entityAt S pid id = objGet B.entities id := by
  unfold entityAt
  rw [h]
  rfl

/-- The entity list `upsertEntity` writes into the aggregate. -/
def upsertEnts (store : Store) (pid : String) (e : Entity) (n : Nat) : List (String × Entity) :=
  objSet (bibleView store pid n).entities (canonicalId e)
    (mergeEntity (objGet (bibleView store pid n).entities (canonicalId e)) e)

theorem upsertEnts_fix (store : Store) (pid : String) (e : Entity) (n : Nat) :
    ∀ kv ∈ upsertEnts store pid e n, dedupeEvidence kv.2.evidence = kv.2.evidence := by
  intro kv hkv
  rcases mem_objSet _ _ _ _ hkv with h | h
  · exact pruned_entities_fix (bibleView_pruned store pid n) kv h
  · rw [h]
    exact dedupeEvidence_idem _

/-- When the merged entity list fits the quota, `upsertEntity` stores exactly
the view updated at the canonical id and freshly stamped. -/
theorem upsertEntity_store_set (store : Store) (pid : String) (e : Entity) (n : Nat)
    (hlen : (upsertEnts store pid e n).length ≤ MAX_ENTITIES) :
    upsertEntity store pid e n
      = objSet (getBible store pid n).2 pid
          { bibleView store pid n with
            entities := upsertEnts store pid e n,
            updatedAt := n, schemaVersion := SCHEMA_VERSION } := by
  rw [upsertEntity_eq, bibleView_projectId]
  show objSet (getBible store pid n).2 pid
      (pruneBible { bibleView store pid n with
          entities := upsertEnts store pid e n,
          updatedAt := n, schemaVersion := SCHEMA_VERSION }) = _
  rw [prune_update_ents (bibleView store pid n) (bibleView_pruned store pid n)
    (upsertEnts store pid e n) n hlen (upsertEnts_fix store pid e n)]

/-- When the canonical id is new and the aggregate is exactly at the entity
cap, the merged entity is pruned away again: the stored entity list is the
old one. -/
theorem upsertEntity_store_full (store : Store) (pid : String) (e : Entity) (n : Nat)
    (hnone : objGet (bibleView store pid n).entities (canonicalId e) = none)
    (hfull : (bibleView store pid n).entities.length = MAX_ENTITIES) :
    upsertEntity store pid e n
      = objSet (getBible store pid n).2 pid
          { bibleView store pid n with updatedAt := n, schemaVersion := SCHEMA_VERSION } := by
  rw [upsertEntity_eq, bibleView_projectId]
  rw [objSet_append_of_none _ _ _ hnone]
  rw [prune_update_ents_full (bibleView store pid n) (bibleView_pruned store pid n) _ n hfull]



/-! ## Claim theorems -/

/-- Claim C2: applying `upsertEntity` twice with an identical delta leaves
the entity stored under the delta's canonical id (hence its attrs mapping
and its evidence list) exactly as after one application.  The delta's attrs
come from a JS object, so their keys are distinct (`h`). -/
theorem upsertEntity_idempotent (store : Store) (pid : String) (e : Entity) (n₁ n₂ : Nat)
    (h : (e.attrs.map Prod.fst).Nodup) :
    entityAt (upsertEntity (upsertEntity store pid e n₁) pid e n₂) pid (canonicalId e)
      = entityAt (upsertEntity store pid e n₁) pid (canonicalId e) := by
  set b₁ := bibleView store pid n₁ with hb₁def
  have hb₁ : Pruned b₁ := bibleView_pruned store pid n₁
  set cid := canonicalId e with hcid
  set prev₁ := objGet b₁.entities cid with hprev₁
  set m₁ := mergeEntity prev₁ e with hm₁
  set E' := objSet b₁.entities cid m₁ with hE'def
  have hEnts : upsertEnts store pid e n₁ = E' := rfl
  have habs : mergeEntity (some m₁) e = m₁ := by
    rw [hm₁]
    exact mergeEntity_absorb prev₁ e h
  by_cases hEle : E'.length ≤ MAX_ENTITIES
  · -- the merged entity survives pruning
    have h1 := upsertEntity_store_set store pid e n₁ (by rw [hEnts]; exact hEle)
    rw [hEnts] at h1
    set B₁ : Bible := { b₁ with entities := E', updatedAt := n₁, schemaVersion := SCHEMA_VERSION } with hB₁def
    have hS₁ : objGet (upsertEntity store pid e n₁) pid = some B₁ := by
      rw [h1]
      exact objGet_objSet_self _ _ _
    have hB₁pid : B₁.projectId = pid := bibleView_projectId store pid n₁
    have hB₁pruned : Pruned B₁ :=
      pruned_of_eq_prune (prune_update_ents b₁ hb₁ E' n₁ hEle
        (by rw [← hEnts]; exact upsertEnts_fix store pid e n₁))
    have hview₂ : bibleView (upsertEntity store pid e n₁) pid n₂ = B₁ :=
      bibleView_of_some _ _ _ _ hS₁ hB₁pid hB₁pruned
    have hB₁ents : B₁.entities = E' := rfl
    have hm₁get : objGet E' cid = some m₁ := objGet_objSet_self _ _ _
    have hE2 : upsertEnts (upsertEntity store pid e n₁) pid e n₂ = E' := by
      unfold upsertEnts
      rw [hview₂, hB₁ents, ← hcid, hm₁get, habs]
      exact objSet_objGet _ _ _ hm₁get
    have h2 := upsertEntity_store_set (upsertEntity store pid e n₁) pid e n₂
      (by rw [hE2]; exact hEle)
    rw [hE2, hview₂] at h2
    have hS₂ : objGet (upsertEntity (upsertEntity store pid e n₁) pid e n₂) pid
        = some { B₁ with entities := E', updatedAt := n₂, schemaVersion := SCHEMA_VERSION } := by
      rw [h2]
      exact objGet_objSet_self _ _ _
    rw [entityAt_of_some _ _ _ _ hS₂, entityAt_of_some _ _ _ _ hS₁, hB₁ents]
  · -- new id at the entity cap: pruned away both times
    have hle := pruned_entities_le hb₁
    have hE'le : E'.length ≤ b₁.entities.length + 1 := objSet_length_le _ _ _
    have hprev₁none : objGet b₁.entities cid = none := by
      cases hp : objGet b₁.entities cid with
      | none => rfl
      | some v =>
        exfalso
        have := objSet_length_of_some b₁.entities cid v m₁ hp
        rw [← hE'def] at this
        omega
    have hfull : b₁.entities.length = MAX_ENTITIES := by omega
    have h1 := upsertEntity_store_full store pid e n₁ (by rw [← hcid]; exact hprev₁none) hfull
    set B₁ : Bible := { b₁ with updatedAt := n₁, schemaVersion := SCHEMA_VERSION } with hB₁def
    have hS₁ : objGet (upsertEntity store pid e n₁) pid = some B₁ := by
      rw [h1]
      exact objGet_objSet_self _ _ _
    have hB₁pid : B₁.projectId = pid := bibleView_projectId store pid n₁
    have hB₁pruned : Pruned B₁ :=
      pruned_of_eq_prune (prune_update_ents_full b₁ hb₁ (cid, m₁) n₁ hfull)
    have hview₂ : bibleView (upsertEntity store pid e n₁) pid n₂ = B₁ :=
      bibleView_of_some _ _ _ _ hS₁ hB₁pid hB₁pruned
    have hB₁ents : B₁.entities = b₁.entities := rfl
    have hnone₂ : objGet (bibleView (upsertEntity store pid e n₁) pid n₂).entities cid = none := by
      rw [hview₂, hB₁ents]
      exact hprev₁none
    have hfull₂ : (bibleView (upsertEntity store pid e n₁) pid n₂).entities.length = MAX_ENTITIES := by
      rw [hview₂, hB₁ents]
      exact hfull
    have h2 := upsertEntity_store_full (upsertEntity store pid e n₁) pid e n₂
      (by rw [← hcid]; exact hnone₂) hfull₂
    rw [hview₂] at h2
    have hS₂ : objGet (upsertEntity (upsertEntity store pid e n₁) pid e n₂) pid
        = some { B₁ with updatedAt := n₂, schemaVersion := SCHEMA_VERSION } := by
      rw [h2]
      exact objGet_objSet_self _ _ _
    rw [entityAt_of_some _ _ _ _ hS₂, entityAt_of_some _ _ _ _ hS₁]



/-- One more association-list fact: overwriting the appended last entry. -/
theorem objSet_append_last {α : Type} (m : List (String × α)) (k : String) (x v : α)
    (h : objGet m k = none) : objSet (m ++ [(k, x)]) k v = m ++ [(k, v)] := by
  induction m with
  | nil => simp [objSet]
  | cons kv rest ih =>
    obtain ⟨k0, v0⟩ := kv
    by_cases h0 : k0 = k
    · simp [objGet, h0] at h
    · simp [objGet, h0] at h
      simp [objSet, h0, ih h]

/-- The concrete evidence and entities of the spec's test scenario (§8). -/
def mercyEv : Evidence := ⟨none, some "I did it for her", none⟩

def mercyE1 : Entity := ⟨"Mercy", "Character", [("motivation", AttrVal.str "guilt")], [mercyEv]⟩

def mercyE2 : Entity :=
  ⟨"Character:Mercy", "Character", [("motivation", AttrVal.str "revenge")], [mercyEv]⟩

def mercyM1 : Entity :=
  ⟨"Character:Mercy", "Character", [("motivation", AttrVal.str "guilt")], [mercyEv]⟩

def mercyM2 : Entity :=
  ⟨"Character:Mercy", "Character", [("motivation", AttrVal.arr ["guilt", "revenge"])], [mercyEv]⟩

/-- Witness for the C2 theorem at a concrete input. -/
theorem upsertEntity_idempotent_witness :
    (mercyE1.attrs.map Prod.fst).Nodup
    ∧ entityAt (upsertEntity (upsertEntity [] "p1" mercyE1 0) "p1" mercyE1 1) "p1" (canonicalId mercyE1)
      = entityAt (upsertEntity [] "p1" mercyE1 0) "p1" (canonicalId mercyE1) :=
  ⟨by decide, upsertEntity_idempotent [] "p1" mercyE1 0 1 (by decide)⟩

/-- Claim C1 (amended): on a project whose aggregate does not yet contain
`"Character:Mercy"` *and is below the entity cap*, upserting the two
conflicting deltas leaves exactly one entity under `"Character:Mercy"`
whose `motivation` is the two-element set `["guilt", "revenge"]` and whose
evidence list is the single deduplicated quote.  (Without the cap
hypothesis the claim fails: see the counterexample.) -/
theorem upsert_conflict_merge_amended (store : Store) (pid : String) (n₁ n₂ : Nat)
    (h1 : objGet (bibleView store pid n₁).entities "Character:Mercy" = none)
    (h2 : (bibleView store pid n₁).entities.length < MAX_ENTITIES) :
    entityAt (upsertEntity (upsertEntity store pid mercyE1 n₁) pid mercyE2 n₂) pid "Character:Mercy"
      = some mercyM2
    ∧ ((objGet (upsertEntity (upsertEntity store pid mercyE1 n₁) pid mercyE2 n₂) pid).map
        (fun b => b.entities.countP (fun kv => kv.1 == "Character:Mercy"))) = some 1 := by
  set b₁ := bibleView store pid n₁ with hb₁def
  have hb₁ : Pruned b₁ := bibleView_pruned store pid n₁
  have hcid1 : canonicalId mercyE1 = "Character:Mercy" := by decide
  have hcid2 : canonicalId mercyE2 = "Character:Mercy" := by decide
  have hmerge1 : mergeEntity none mercyE1 = mercyM1 := by decide
  have hmerge2 : mergeEntity (some mercyM1) mercyE2 = mercyM2 := by decide
  have hE1 : upsertEnts store pid mercyE1 n₁ = b₁.entities ++ [("Character:Mercy", mercyM1)] := by
    unfold upsertEnts
    rw [hcid1, ← hb₁def, h1, objSet_append_of_none _ _ _ h1, hmerge1]
  have hlen1 : (upsertEnts store pid mercyE1 n₁).length ≤ MAX_ENTITIES := by
    rw [hE1, List.length_append, List.length_singleton]
    omega
  have h1eq := upsertEntity_store_set store pid mercyE1 n₁ hlen1
  rw [hE1] at h1eq
  set B₁ : Bible :=
    { b₁ with
      entities := b₁.entities ++ [("Character:Mercy", mercyM1)],
      updatedAt := n₁,
      schemaVersion := SCHEMA_VERSION } with hB₁def
  have hS₁ : objGet (upsertEntity store pid mercyE1 n₁) pid = some B₁ := by
    rw [h1eq]
    exact objGet_objSet_self _ _ _
  have hB₁pid : B₁.projectId = pid := bibleView_projectId store pid n₁
  have hB₁pruned : Pruned B₁ :=
    pruned_of_eq_prune (prune_update_ents b₁ hb₁ _ n₁ (by rw [← hE1]; exact hlen1)
      (by rw [← hE1]; exact upsertEnts_fix store pid mercyE1 n₁))
  have hview₂ : bibleView (upsertEntity store pid mercyE1 n₁) pid n₂ = B₁ :=
    bibleView_of_some _ _ _ _ hS₁ hB₁pid hB₁pruned
  have hB₁ents : B₁.entities = b₁.entities ++ [("Character:Mercy", mercyM1)] := rfl
  have hgetB₁ : objGet B₁.entities "Character:Mercy" = some mercyM1 := by
    rw [hB₁ents, objGet_append_none _ _ _ h1]
    simp [objGet]
  have hE2 : upsertEnts (upsertEntity store pid mercyE1 n₁) pid mercyE2 n₂
      = b₁.entities ++ [("Character:Mercy", mercyM2)] := by
    unfold upsertEnts
    rw [hview₂, hcid2, hgetB₁, hmerge2, hB₁ents, objSet_append_last _ _ _ _ h1]
  have hlen2 : (upsertEnts (upsertEntity store pid mercyE1 n₁) pid mercyE2 n₂).length ≤ MAX_ENTITIES := by
    rw [hE2, List.length_append, List.length_singleton]
    omega
  have h2eq := upsertEntity_store_set (upsertEntity store pid mercyE1 n₁) pid mercyE2 n₂ hlen2
  rw [hE2, hview₂] at h2eq
  set B₂ : Bible :=
    { B₁ with
      entities := b₁.entities ++ [("Character:Mercy", mercyM2)],
      updatedAt := n₂,
      schemaVersion := SCHEMA_VERSION } with hB₂def
  have hS₂ : objGet (upsertEntity (upsertEntity store pid mercyE1 n₁) pid mercyE2 n₂) pid
      = some B₂ := by
    rw [h2eq]
    exact objGet_objSet_self _ _ _
  have hB₂ents : B₂.entities = b₁.entities ++ [("Character:Mercy", mercyM2)] := rfl
  constructor
  · rw [entityAt_of_some _ _ _ _ hS₂, hB₂ents, objGet_append_none _ _ _ h1]
    simp [objGet]
  · rw [hS₂]
    show some (B₂.entities.countP (fun kv => kv.1 == "Character:Mercy")) = some 1
    refine congrArg some ?_
    rw [hB₂ents, List.countP_append]
    have hz : b₁.entities.countP (fun kv => kv.1 == "Character:Mercy") = 0 := by
      rw [List.countP_eq_zero]
      intro kv hkv
      have := (objGet_none_iff b₁.entities "Character:Mercy").mp h1 kv hkv
      simpa using this
    rw [hz]
    decide



/-- Witness for the amended C1 theorem on the empty store. -/
theorem upsert_conflict_merge_witness :
    (objGet (bibleView [] "p1" 0).entities "Character:Mercy" = none
      ∧ (bibleView [] "p1" 0).entities.length < MAX_ENTITIES)
    ∧ (entityAt (upsertEntity (upsertEntity [] "p1" mercyE1 0) "p1" mercyE2 1) "p1" "Character:Mercy"
        = some mercyM2
      ∧ ((objGet (upsertEntity (upsertEntity [] "p1" mercyE1 0) "p1" mercyE2 1) "p1").map
          (fun b => b.entities.countP (fun kv => kv.1 == "Character:Mercy"))) = some 1) :=
  ⟨⟨by decide, by decide⟩, upsert_conflict_merge_amended [] "p1" 0 1 (by decide) (by decide)⟩

/-- An aggregate already holding `MAX_ENTITIES` distinct entities. -/
def capEntity (i : Nat) : String × Entity :=
  ("X" ++ toString i, ⟨"X" ++ toString i, "Concept", [], []⟩)

def capBible : Bible :=
  ⟨"p1", 0, 1, (List.range MAX_ENTITIES).map capEntity, [], []⟩

def capStore : Store := [("p1", capBible)]

theorem capBible_entities_length : capBible.entities.length = MAX_ENTITIES := by
  show ((List.range MAX_ENTITIES).map capEntity).length = MAX_ENTITIES
  rw [List.length_map, List.length_range]

theorem strX_ne_mercy (s : String) : ("X" ++ s) ≠ "Character:Mercy" := by
  intro h
  have h2 : ("X" ++ s).data = "Character:Mercy".data := congrArg String.data h
  rw [String.data_append] at h2
  have h3 : ("X".data ++ s.data).head? = "Character:Mercy".data.head? := congrArg List.head? h2
  have h4 : some 'X' = some 'C' := h3
  exact absurd h4 (by decide)

theorem capBible_no_mercy : objGet capBible.entities "Character:Mercy" = none := by
  rw [objGet_none_iff]
  intro kv hkv
  rcases List.mem_map.mp hkv with ⟨i, _, rfl⟩
  exact strX_ne_mercy (toString i)

theorem pruned_of_components (b : Bible)
    (hlen : ¬ (b.entities.length > MAX_ENTITIES))
    (hfix : ∀ kv ∈ b.entities, dedupeEvidence kv.2.evidence = kv.2.evidence)
    (hlent : ¬ (b.threads.length > MAX_THREADS))
    (htfix : ∀ t ∈ b.threads, pruneThread t = t) :
    Pruned b := by
  have he : (pruneBible b).entities = b.entities := by
    rw [pruneBible_entities, if_neg hlen]
    exact entsMap_eq_self _ hfix
  have ht : (pruneBible b).threads = b.threads := by
    rw [pruneBible_threads, if_neg hlent]
    exact map_eq_self_of _ _ htfix
  have hshape : pruneBible b
      = { b with
          entities := (pruneBible b).entities,
          threads := (pruneBible b).threads } := rfl
  show pruneBible b = b
  rw [hshape, he, ht, bible_eta_update]

theorem capBible_pruned : Pruned capBible := by
  refine pruned_of_components capBible ?_ ?_ ?_ ?_
  · have := capBible_entities_length
    omega
  · intro kv hkv
    rcases List.mem_map.mp hkv with ⟨i, _, rfl⟩
    rfl
  · intro h
    exact absurd h (by decide)
  · intro t ht
    exact absurd ht (List.not_mem_nil t)

theorem capStore_get : objGet capStore "p1" = some capBible := by
  unfold capStore objGet
  rw [if_pos rfl]

/-- Claim C1, counterexample to the claim as stated: `capStore` maps
`"Character:Mercy"` to no entity, yet after the two upserts there is *no*
entity under `"Character:Mercy"` at all (the aggregate is at the entity
cap, so the merged entity is pruned away), contradicting the claimed
"exactly one entity with the two-element motivation set". -/
theorem upsert_conflict_merge_cex :
    objGet (bibleView capStore "p1" 0).entities "Character:Mercy" = none
    ∧ entityAt (upsertEntity (upsertEntity capStore "p1" mercyE1 0) "p1" mercyE2 1) "p1"
        "Character:Mercy" = none := by
  have hview₁ : bibleView capStore "p1" 0 = capBible :=
    bibleView_of_some _ _ _ _ capStore_get rfl capBible_pruned
  have hcid1 : canonicalId mercyE1 = "Character:Mercy" := by decide
  have hcid2 : canonicalId mercyE2 = "Character:Mercy" := by decide
  have h1eq := upsertEntity_store_full capStore "p1" mercyE1 0
    (by rw [hview₁, hcid1]; exact capBible_no_mercy)
    (by rw [hview₁]; exact capBible_entities_length)
  rw [hview₁] at h1eq
  set B₁ : Bible := { capBible with updatedAt := 0, schemaVersion := SCHEMA_VERSION } with hB₁def
  have hS₁ : objGet (upsertEntity capStore "p1" mercyE1 0) "p1" = some B₁ := by
    rw [h1eq]
    exact objGet_objSet_self _ _ _
  have hB₁pruned : Pruned B₁ :=
    pruned_of_eq_prune (prune_update_ents_full capBible capBible_pruned
      ("Character:Mercy", mergeEntity none mercyE1) 0 capBible_entities_length)
  have hview₂ : bibleView (upsertEntity capStore "p1" mercyE1 0) "p1" 1 = B₁ :=
    bibleView_of_some _ _ _ _ hS₁ rfl hB₁pruned
  have hB₁ents : B₁.entities = capBible.entities := rfl
  have h2eq := upsertEntity_store_full (upsertEntity capStore "p1" mercyE1 0) "p1" mercyE2 1
    (by rw [hview₂, hB₁ents, hcid2]; exact capBible_no_mercy)
    (by rw [hview₂, hB₁ents]; exact capBible_entities_length)
  rw [hview₂] at h2eq
  have hS₂ : objGet (upsertEntity (upsertEntity capStore "p1" mercyE1 0) "p1" mercyE2 1) "p1"
      = some { B₁ with updatedAt := 1, schemaVersion := SCHEMA_VERSION } := by
    rw [h2eq]
    exact objGet_objSet_self _ _ _
  refine ⟨by rw [hview₁]; exact capBible_no_mercy, ?_⟩
  rw [entityAt_of_some _ _ _ _ hS₂]
  exact capBible_no_mercy



theorem normalizeType_mem (t : String) :
    normalizeType t = "Character" ∨ normalizeType t = "Location" ∨ normalizeType t = "Rule"
      ∨ normalizeType t = "Object" ∨ normalizeType t = "Concept" := by
  simp only [normalizeType]
  split
  · next h => exact h
  · split
    · exact Or.inl rfl
    · split
      · exact Or.inr (Or.inl rfl)
      · split
        · exact Or.inr (Or.inr (Or.inl rfl))
        · split
          · exact Or.inr (Or.inr (Or.inr (Or.inl rfl)))
          · exact Or.inr (Or.inr (Or.inr (Or.inr rfl)))

/-- Claim C4 (amended): `upsertEntity` derives the id prefix from the
normalized type only when the delta's id lacks an alphabetic prefix: such a
delta is stored (below the entity cap) under `"<Type>:" ++ id` with a type
field equal to that normalized type, which is one of the five valid names.
A delta id that already carries any alphabetic prefix is kept verbatim even
when the prefix differs from the type — see the counterexample. -/
theorem upsertEntity_prefix_amended (store : Store) (pid : String) (e : Entity) (n : Nat)
    (hpre : startsAlphaColon e.id = false)
    (hlen : (bibleView store pid n).entities.length < MAX_ENTITIES) :
    canonicalId e = entityNType e ++ ":" ++ e.id
    ∧ (entityNType e = "Character" ∨ entityNType e = "Location" ∨ entityNType e = "Rule"
        ∨ entityNType e = "Object" ∨ entityNType e = "Concept")
    ∧ ∃ ent, entityAt (upsertEntity store pid e n) pid (canonicalId e) = some ent
        ∧ ent.id = canonicalId e ∧ ent.type = entityNType e := by
  refine ⟨?_, normalizeType_mem _, ?_⟩
  · simp [canonicalId, ensureIdPrefixed, hpre]
  · have hlenE : (upsertEnts store pid e n).length ≤ MAX_ENTITIES := by
      have h1 : (upsertEnts store pid e n).length ≤ (bibleView store pid n).entities.length + 1 :=
        objSet_length_le _ _ _
      omega
    have h1eq := upsertEntity_store_set store pid e n hlenE
    have hS₁ : objGet (upsertEntity store pid e n) pid
        = some { bibleView store pid n with
                 entities := upsertEnts store pid e n,
                 updatedAt := n, schemaVersion := SCHEMA_VERSION } := by
      rw [h1eq]
      exact objGet_objSet_self _ _ _
    refine ⟨mergeEntity (objGet (bibleView store pid n).entities (canonicalId e)) e, ?_, rfl, rfl⟩
    rw [entityAt_of_some _ _ _ _ hS₁]
    exact objGet_objSet_self _ _ _

def xyE : Entity := ⟨"X:Y", "Character", [], []⟩

/-- Claim C4, counterexample to the claim as stated: an id whose existing
prefix does not match the type is stored verbatim, so the stored entity's
prefix `"X"` differs from its type `"Character"`. -/
theorem upsertEntity_prefix_cex :
    entityAt (upsertEntity [] "p" xyE 0) "p" "X:Y" = some (⟨"X:Y", "Character", [], []⟩ : Entity)
    ∧ headBeforeColon "X:Y" ≠ "Character" := by decide

/-- Witness for the amended C4 theorem. -/
theorem upsertEntity_prefix_witness :
    (startsAlphaColon mercyE1.id = false ∧ (bibleView [] "p1" 0).entities.length < MAX_ENTITIES)
    ∧ canonicalId mercyE1 = entityNType mercyE1 ++ ":" ++ mercyE1.id :=
  ⟨⟨by decide, by decide⟩, (upsertEntity_prefix_amended [] "p1" mercyE1 0 (by decide) (by decide)).1⟩

/-- Claim C5 (amended): migration passes any present `schemaVersion`
(current or future) through unchanged, but `putBible` — the final step of
every mutating operation — restamps the stored version to
`SCHEMA_VERSION = 1`; the stored version therefore never decreases only for
aggregates whose version is at most `SCHEMA_VERSION`. -/
theorem schemaVersion_amended :
    (∀ (b : Bible) (pid : String) (n : Nat),
      (migrate (some b) pid n).schemaVersion = b.schemaVersion)
    ∧ (∀ (store : Store) (b : Bible) (n : Nat),
        (objGet (putBible store b n) b.projectId).map Bible.schemaVersion = some SCHEMA_VERSION)
    ∧ (∀ (store : Store) (b : Bible) (n v : Nat),
        b.schemaVersion ≤ SCHEMA_VERSION →
        (objGet (putBible store b n) b.projectId).map Bible.schemaVersion = some v →
        b.schemaVersion ≤ v) := by
  have hput : ∀ (store : Store) (b : Bible) (n : Nat),
      (objGet (putBible store b n) b.projectId).map Bible.schemaVersion = some SCHEMA_VERSION := by
    intro store b n
    rw [putBible_eq, objGet_objSet_self]
    rfl
  refine ⟨fun b pid n => rfl, hput, ?_⟩
  intro store b n v hle hv
  rw [hput store b n] at hv
  have := Option.some.inj hv
  omega

def verBible : Bible := ⟨"p", 0, 0, [], [], []⟩

/-- Witness for the amended C5 theorem. -/
theorem schemaVersion_amended_witness :
    (migrate (some verBible) "p" 5).schemaVersion = verBible.schemaVersion
    ∧ verBible.schemaVersion ≤ SCHEMA_VERSION
    ∧ verBible.schemaVersion ≤ 1 :=
  ⟨schemaVersion_amended.1 verBible "p" 5, by decide,
   schemaVersion_amended.2.2 [] verBible 3 1 (by decide) (by decide)⟩

def futureBible : Bible := ⟨"p", 0, 2, [], [], []⟩

/-- Claim C5, counterexample to the claim as stated: a stored aggregate at
the unknown future schema version 2 has its version replaced by 1 — a
smaller value — by `putBible`. -/
theorem schemaVersion_cex :
    objGet [("p", futureBible)] "p" = some futureBible
    ∧ (objGet (putBible [("p", futureBible)] futureBible 5) "p").map Bible.schemaVersion = some 1
    ∧ (1 : Nat) < futureBible.schemaVersion := by decide

/-- Claim C6 (amended): a key missing from the delta leaves the existing
value untouched, but an *empty-string* delta value on a present non-empty
scalar does alter the slot: the result is the two-element set
`[existing, ""]` (the existing value is retained as the first element, not
overwritten, yet the slot does change). -/
theorem mergeAttrs_missing_and_empty (a b : AttrMap) (k s : String) :
    (k ∉ b.map Prod.fst → objGet (mergeAttrs a b) k = objGet a k)
    ∧ (s ≠ "" → objGet a k = some (AttrVal.str s) →
        objGet (mergeAttrs a [(k, AttrVal.str "")]) k = some (AttrVal.arr [s, ""])) := by
  constructor
  · intro hk
    exact foldl_mergeOne_objGet_ne b a k
      (fun kv hkv c => hk (c ▸ List.mem_map_of_mem Prod.fst hkv))
  · intro hs hget
    have h1 : objGet (mergeAttrs a [(k, AttrVal.str "")]) k
        = some (mergeVal (objGet a k) (AttrVal.str "")) := by
      show objGet (mergeOne a (k, AttrVal.str "")) k = _
      exact objGet_objSet_self _ _ _
    rw [h1, hget]
    show some (mergeVal (some (AttrVal.str s)) (AttrVal.str "")) = _
    simp only [mergeVal]
    rw [if_pos ⟨hs, hs⟩]
    have huniq : uniq [s, ""] = [s, ""] := by
      refine dedupBy_eq_self id [s, ""] [] ?_ (by simp)
      simp [hs]
    rw [huniq]

/-- Claim C6, counterexample to the claim as stated: an empty-string delta
value on the present value `"guilt"` turns the slot into the two-element
set `["guilt", ""]` instead of leaving it unchanged. -/
theorem mergeAttrs_empty_cex :
    mergeAttrs [("motivation", AttrVal.str "guilt")] [("motivation", AttrVal.str "")]
      = [("motivation", AttrVal.arr ["guilt", ""])]
    ∧ AttrVal.arr ["guilt", ""] ≠ AttrVal.str "guilt" := by decide

/-- Witness for the amended C6 theorem. -/
theorem mergeAttrs_missing_and_empty_witness :
    ("other" ∉ ([("motivation", AttrVal.str "revenge")] : AttrMap).map Prod.fst
      ∧ ("guilt" : String) ≠ ""
      ∧ objGet [("motivation", AttrVal.str "guilt")] "motivation" = some (AttrVal.str "guilt"))
    ∧ (objGet (mergeAttrs [("motivation", AttrVal.str "guilt")] [("motivation", AttrVal.str "revenge")]) "other"
        = objGet [("motivation", AttrVal.str "guilt")] "other"
      ∧ objGet (mergeAttrs [("motivation", AttrVal.str "guilt")] [("motivation", AttrVal.str "")]) "motivation"
        = some (AttrVal.arr ["guilt", ""])) :=
  ⟨⟨by decide, by decide, by decide⟩,
   ⟨(mergeAttrs_missing_and_empty [("motivation", AttrVal.str "guilt")]
       [("motivation", AttrVal.str "revenge")] "other" "guilt").1 (by decide),
    (mergeAttrs_missing_and_empty [("motivation", AttrVal.str "guilt")]
       [("motivation", AttrVal.str "revenge")] "motivation" "guilt").2 (by decide) (by decide)⟩⟩



/-- Claim C7 (amended): after `putBible` — the write step ending every
mutating operation — the stored aggregate satisfies all quota bounds:
at most `MAX_ENTITIES` entities (and exactly `MAX_ENTITIES` when at least
that many were submitted), at most `MAX_THREADS` threads, deduplicated
evidence capped at `MAX_EVIDENCE_PER_ENTITY` per entity, todos capped at
`MAX_TODOS_PER_THREAD` per thread (truncated but *not* deduplicated — see
the counterexample), and every hook finite within `[0, 1]`. -/
theorem putBible_bounds (store : Store) (b : Bible) (n : Nat) :
    ∀ b', objGet (putBible store b n) b.projectId = some b' →
      b'.entities.length ≤ MAX_ENTITIES
      ∧ b'.threads.length ≤ MAX_THREADS
      ∧ (∀ kv ∈ b'.entities, kv.2.evidence.length ≤ MAX_EVIDENCE_PER_ENTITY
          ∧ (kv.2.evidence.map evKey).Nodup)
      ∧ (∀ t ∈ b'.threads, t.todos.length ≤ MAX_TODOS_PER_THREAD
          ∧ ∀ hk ∈ t.hooks, inUnitRange hk = true)
      ∧ (MAX_ENTITIES ≤ b.entities.length → b'.entities.length = MAX_ENTITIES) := by
  intro b' hb'
  rw [putBible_eq, objGet_objSet_self] at hb'
  obtain rfl : b' = pruneBible { b with updatedAt := n, schemaVersion := SCHEMA_VERSION } :=
    (Option.some.inj hb').symm
  refine ⟨pruneBible_entities_le _, pruneBible_threads_le _, ?_, ?_, ?_⟩
  · intro kv hkv
    rw [pruneBible_entities] at hkv
    rcases List.mem_map.mp hkv with ⟨ke, _, rfl⟩
    exact ⟨dedupeEvidence_length_le _, dedupeEvidence_keys_nodup _⟩
  · intro t ht
    rw [pruneBible_threads] at ht
    rcases List.mem_map.mp ht with ⟨t0, _, rfl⟩
    refine ⟨List.length_take_le _ _, ?_⟩
    intro hk hhk
    exact List.of_mem_filter hhk
  · intro hge
    rw [pruneBible_entities, List.length_map]
    have hXe : ({ b with updatedAt := n, schemaVersion := SCHEMA_VERSION } : Bible).entities
        = b.entities := rfl
    rw [hXe]
    by_cases hgt : b.entities.length > MAX_ENTITIES
    · rw [if_pos hgt, List.length_take]
      omega
    · rw [if_neg hgt]
      omega

def prunedVer : Bible := ⟨"p", 0, 1, [], [], []⟩

/-- Witness for the amended C7 theorem. -/
theorem putBible_bounds_witness :
    objGet (putBible [] verBible 0) verBible.projectId = some prunedVer
    ∧ prunedVer.entities.length ≤ MAX_ENTITIES :=
  ⟨by decide, (putBible_bounds [] verBible 0 prunedVer (by decide)).1⟩

def dupTodoBible : Bible :=
  ⟨"p", 0, 1, [], [⟨"T", "open", none, [], ["a", "a"], none, none⟩], []⟩

/-- Claim C7, counterexample to the claim as stated: `putBible` persists a
thread whose todo list still holds the duplicate `"a"` twice — the prune
pass truncates todos but never deduplicates them. -/
theorem putBible_todos_cex :
    ((objGet (putBible [] dupTodoBible 0) "p").map (fun b => b.threads.map Thread.todos))
      = some [["a", "a"]]
    ∧ ¬ (["a", "a"] : List String).Nodup := by decide

/-- Claim C8: for every store, project and bounds, the snapshot returns at
most `maxEntities` entities (each projected to at most `maxAttrsPerEntity`
attribute keys and, by construction of `SnapEntity`, no evidence at all);
its threads are exactly the trailing 20 of the aggregate's thread sequence,
each exposing at most the first 6 hooks. -/
theorem snapshot_bounded (store : Store) (pid : String) (mE mA n : Nat) :
    (getSnapshotForLLM store pid mE mA n).1.entities.length ≤ mE
    ∧ (∀ se ∈ (getSnapshotForLLM store pid mE mA n).1.entities, se.attrs.length ≤ mA)
    ∧ (getSnapshotForLLM store pid mE mA n).1.threads.map SnapThread.name
        = ((bibleView store pid n).threads.drop ((bibleView store pid n).threads.length - 20)).map
            Thread.name
    ∧ (∀ st ∈ (getSnapshotForLLM store pid mE mA n).1.threads, st.hooks.length ≤ 6) := by
  have hents : (getSnapshotForLLM store pid mE mA n).1.entities
      = ((((bibleView store pid n).entities.map Prod.snd).mergeSort
          (fun a z => z.evidence.length ≤ a.evidence.length)).take mE).map
        (fun e => ({ id := e.id, type := e.type, attrs := e.attrs.take mA } : SnapEntity)) := rfl
  have hths : (getSnapshotForLLM store pid mE mA n).1.threads
      = ((bibleView store pid n).threads.drop ((bibleView store pid n).threads.length - 20)).map
        (fun t => ({ name := t.name, status := t.status, notes := t.notes,
                     hooks := t.hooks.take 6 } : SnapThread)) := rfl
  refine ⟨?_, ?_, ?_, ?_⟩
  · rw [hents, List.length_map]
    exact List.length_take_le _ _
  · intro se hse
    rw [hents] at hse
    rcases List.mem_map.mp hse with ⟨e0, _, rfl⟩
    exact List.length_take_le _ _
  · rw [hths, List.map_map]
    rfl
  · intro st hst
    rw [hths] at hst
    rcases List.mem_map.mp hst with ⟨t0, _, rfl⟩
    exact List.length_take_le _ _

/-- Claim C9 (amended): when the project's aggregate already exists in the
store, `searchBible` and `getSnapshotForLLM` leave the persisted store
untouched.  (When it does not exist, the embedded `getBible` lazily creates
and *persists* a fresh aggregate — see the counterexample.) -/
theorem readPaths_frame_amended (store : Store) (pid q : String) (mE mA n : Nat) (b₀ : Bible)
    (h : objGet store pid = some b₀) :
    (searchBible store pid q n).2 = store ∧ (getSnapshotForLLM store pid mE mA n).2 = store := by
  constructor
  · show (getBible store pid n).2 = store
    rw [getBible_of_some store pid n b₀ h]
  · show (getBible store pid n).2 = store
    rw [getBible_of_some store pid n b₀ h]

/-- Witness for the amended C9 theorem. -/
theorem readPaths_frame_witness :
    objGet [("p", verBible)] "p" = some verBible
    ∧ ((searchBible [("p", verBible)] "p" "mercy" 0).2 = [("p", verBible)]
      ∧ (getSnapshotForLLM [("p", verBible)] "p" 60 6 0).2 = [("p", verBible)]) :=
  ⟨by decide, readPaths_frame_amended [("p", verBible)] "p" "mercy" 60 6 0 verBible (by decide)⟩

/-- Claim C9, counterexample to the claim as stated: on a project with no
stored aggregate, `searchBible` writes a fresh default aggregate into the
store — the stored contents are not identical before and after. -/
theorem search_creates_cex : (searchBible [] "p1" "" 0).2 ≠ ([] : Store) := by decide

/-- Claim C10: `addEvidence` on a stored project aggregate: when no entity
sits under exactly the given (non-canonicalized) id, it performs no write at
all; when the entity exists, it appends the evidence deduplicated by the
`(chapterId, span, quote-prefix)` key and capped at `MAX_EVIDENCE_PER_ENTITY`,
leaving every other entity and all threads unchanged.  The hypotheses state
that the project has a stored aggregate, keyed consistently and in pruned
form — true of everything the store ever persists. -/
theorem addEvidence_spec (store : Store) (pid id : String) (ev : Evidence) (n : Nat) (b₀ : Bible)
    (hs : objGet store pid = some b₀) (hpid : b₀.projectId = pid) (hp : Pruned b₀) :
    (objGet b₀.entities id = none → addEvidence store pid id ev n = store)
    ∧ (∀ cur, objGet b₀.entities id = some cur →
        ∃ b', objGet (addEvidence store pid id ev n) pid = some b'
          ∧ objGet b'.entities id
              = some { cur with evidence := dedupeEvidence (cur.evidence ++ [ev]) }
          ∧ (∀ k, k ≠ id → objGet b'.entities k = objGet b₀.entities k)
          ∧ b'.threads = b₀.threads
          ∧ (dedupeEvidence (cur.evidence ++ [ev])).length ≤ MAX_EVIDENCE_PER_ENTITY
          ∧ ((dedupeEvidence (cur.evidence ++ [ev])).map evKey).Nodup) := by
  have hview : bibleView store pid n = b₀ := bibleView_of_some _ _ _ _ hs hpid hp
  have hsnd : (getBible store pid n).2 = store := by
    rw [getBible_of_some store pid n b₀ hs]
  have haddeq : addEvidence store pid id ev n
      = match objGet (bibleView store pid n).entities id with
        | none => (getBible store pid n).2
        | some cur =>
          putBible (getBible store pid n).2
            { bibleView store pid n with
              entities := objSet (bibleView store pid n).entities id
                { cur with evidence := dedupeEvidence (cur.evidence ++ [ev]) },
              updatedAt := n } n := rfl
  constructor
  · intro hnone
    rw [haddeq, hview, hnone]
    exact hsnd
  · intro cur hcur
    set cur2 : Entity := { cur with evidence := dedupeEvidence (cur.evidence ++ [ev]) } with hcur2
    set X1 : Bible :=
      { b₀ with
        entities := objSet b₀.entities id cur2,
        updatedAt := n } with hX1
    set X2 : Bible :=
      { b₀ with
        entities := objSet b₀.entities id cur2,
        updatedAt := n,
        schemaVersion := SCHEMA_VERSION } with hX2
    have haddsome : addEvidence store pid id ev n = putBible store X1 n := by
      rw [haddeq, hview, hcur, hsnd]
    have hX1pid : X1.projectId = pid := hpid
    have hput : putBible store X1 n = objSet store pid (pruneBible X2) := by
      rw [putBible_eq]
      have h1 : ({ X1 with updatedAt := n, schemaVersion := SCHEMA_VERSION } : Bible) = X2 := rfl
      rw [h1, hX1pid]
    have hprune : pruneBible X2 = X2 := by
      rw [hX2]
      refine prune_update_ents b₀ hp _ n ?_ ?_
      · rw [objSet_length_of_some b₀.entities id cur cur2 hcur]
        exact pruned_entities_le hp
      · intro kv hkv
        rcases mem_objSet _ _ _ _ hkv with hold | hnew
        · exact pruned_entities_fix hp kv hold
        · rw [hnew]
          exact dedupeEvidence_idem _
    rw [haddsome, hput, hprune]
    refine ⟨X2, objGet_objSet_self _ _ _, ?_, ?_, rfl,
            dedupeEvidence_length_le _, dedupeEvidence_keys_nodup _⟩
    · exact objGet_objSet_self _ _ _
    · intro k hk
      exact objGet_objSet_ne _ _ _ _ (Ne.symm hk)

def tenEnt : Entity := ⟨"Character:A", "Character", [], []⟩

def tenBible : Bible := ⟨"p", 0, 1, [("Character:A", tenEnt)], [], []⟩

def tenStore : Store := [("p", tenBible)]

/-- Witness for the C10 theorem (the silent no-op part at a concrete input). -/
theorem addEvidence_spec_witness :
    (objGet tenStore "p" = some tenBible ∧ tenBible.projectId = "p" ∧ Pruned tenBible
      ∧ objGet tenBible.entities "nope" = none)
    ∧ addEvidence tenStore "p" "nope" mercyEv 3 = tenStore :=
  ⟨⟨by decide, by decide, by decide, by decide⟩,
   (addEvidence_spec tenStore "p" "nope" mercyEv 3 tenBible (by decide) (by decide)
      (by decide)).1 (by decide)⟩

def tFooA : Thread := ⟨" Foo ", "open", none, [], [], none, none⟩

def tFooB : Thread := ⟨"Foo", "open", none, [], [], none, none⟩

/-- Claim C3: the code violates thread-name uniqueness.  `upsertThread`
looks a thread up by its *trimmed* name but stores the *untrimmed*
`t.name` (the `...t` spread overwrites the canonical name), so upserting
`" Foo "`, then `"Foo"`, then `" Foo "` again leaves two stored threads
both named `" Foo "`: after a mutating operation, two threads share a name. -/
theorem upsertThread_dup_name_bug :
    ((objGet (upsertThread (upsertThread (upsertThread [] "p" tFooA 0) "p" tFooB 1) "p" tFooA 2)
        "p").map (fun b => b.threads.map Thread.name)) = some [" Foo ", " Foo "]
    ∧ ¬ ([" Foo ", " Foo "] : List String).Nodup := by decide


end SL
